import Mathlib

/-!
Shallow embedding of the SwitchTube downloader's selection and
identifier-resolution logic.

The interactive selector is embedded from
`internal/helper/ui/input/interactive.go` and
`internal/helper/ui/input/input.go` (the final, wraparound variant of the
selector — the repository also contains a superseded clamping variant).
The text-based fallback parser is embedded from
`internal/helper/ui/selector.go`, and the identifier resolution from
`extractIDAndType` in `internal/download/client.go`.

Strings are modelled as `List Char`; Go slices as Lean lists; Go's
`map[int]bool` "seen" set as a `List Nat` with membership tests; fallible
calls as `Except`/`Option`.
-/

namespace STV

/-- Model of `models.Video`: the fields the selector logic touches. -/
structure Video where
  title : String
  episode : String
deriving Repr, DecidableEq

/-- Model of `input.Key`: the decoded-key enumeration from `input/input.go`. -/
inductive Key where
  | arrowUp
  | arrowDown
  | space
  | enter
  | ctrlC
  | char
  | unknown
deriving Repr, DecidableEq

/-- Model of `input.Event`: a keyboard input event. -/
structure Event where
  key : Key
  char : Char
deriving Repr, DecidableEq

/-- Errors the interactive selector can surface
(`ErrUserAbort`, `errFailedToReadKey`, `terminal.ErrFailedToSetRawMode`). -/
inductive SelError where
  | userAbort
  | readKeyFailed
  | failedToSetRawMode
deriving Repr, DecidableEq

/-- The decoding logic of `input.ReadKey` applied to the bytes obtained
from one successful `os.Stdin.Read` into a 3-byte buffer.  Byte values are
naturals; the read bytes are `buf`. -/
def readKeyDecode (buf : List Nat) : Event :=
  match buf with
  | [] => { key := .unknown, char := Char.ofNat 0 }
  | b0 :: rest =>
    if b0 = 27 then
      match rest with
      | b1 :: b2 :: _ =>
        if b1 = 91 then
          if b2 = 65 then { key := .arrowUp, char := Char.ofNat 0 }
          else if b2 = 66 then { key := .arrowDown, char := Char.ofNat 0 }
          else { key := .unknown, char := Char.ofNat 0 }
        else { key := .unknown, char := Char.ofNat 0 }
      | _ => { key := .unknown, char := Char.ofNat 0 }
    else if b0 = 13 ∨ b0 = 10 then { key := .enter, char := Char.ofNat 0 }
    else if b0 = 32 then { key := .space, char := Char.ofNat 0 }
    else if b0 = 3 then { key := .ctrlC, char := Char.ofNat 0 }
    else if b0 = 106 then { key := .arrowDown, char := 'j' }
    else if b0 = 107 then { key := .arrowUp, char := 'k' }
    else if 32 ≤ b0 ∧ b0 ≤ 126 then { key := .char, char := Char.ofNat b0 }
    else { key := .unknown, char := Char.ofNat 0 }

/-- Model of `input.selectionState`: the state of the interactive selection UI. -/
structure SelectionState where
  videos : List Video
  selected : List Bool
  currentIndex : Nat
  useEpisode : Bool
deriving Repr, DecidableEq

/-- Model of `newSelectionState`: all items selected by default, cursor at 0. -/
def newSelectionState (videos : List Video) (useEpisode : Bool) : SelectionState :=
  { videos := videos
    selected := List.replicate videos.length true
    currentIndex := 0
    useEpisode := useEpisode }

/-- Model of `selectionState.moveDown`: cursor down one, wrapping. -/
def moveDown (s : SelectionState) : SelectionState :=
  { s with currentIndex := (s.currentIndex + 1) % s.videos.length }

/-- Model of `selectionState.moveUp`: cursor up one, wrapping.  Go computes
`(currentIndex - 1 + len(videos)) % len(videos)` over `int`, so the
subtraction is carried out in `Int` before converting back. -/
def moveUp (s : SelectionState) : SelectionState :=
  { s with currentIndex :=
      (((s.currentIndex : Int) - 1 + (s.videos.length : Int)) % (s.videos.length : Int)).toNat }

/-- Model of `selectionState.toggleCurrent`: flip the flag under the cursor and
advance the cursor with wraparound. -/
def toggleCurrent (s : SelectionState) : SelectionState :=
  { s with
    selected := s.selected.set s.currentIndex (!(s.selected.getD s.currentIndex false))
    currentIndex := (s.currentIndex + 1) % s.videos.length }

/-- Loop of `selectionState.getSelectedIndices`, indexing the flag list from `k`. -/
def getSelectedIndicesAux : List Bool → Nat → List Nat
  | [], _ => []
  | b :: bs, k => if b then k :: getSelectedIndicesAux bs (k + 1) else getSelectedIndicesAux bs (k + 1)

/-- Model of `selectionState.getSelectedIndices`: indices of all selected items. -/
def getSelectedIndices (s : SelectionState) : List Nat :=
  getSelectedIndicesAux s.selected 0

/-- Model of `selectionState.handleEvent`: returns the new state and the Go results
`(shouldRender, shouldExit, err)`. -/
def handleEvent (s : SelectionState) (e : Event) : SelectionState × Bool × Bool × Option SelError :=
  match e.key with
  | .arrowUp => (moveUp s, true, false, none)
  | .arrowDown => (moveDown s, true, false, none)
  | .space => (toggleCurrent s, true, false, none)
  | .enter => (s, false, true, none)
  | .ctrlC => (s, false, true, some .userAbort)
  | _ => (s, true, false, none)

/-- One outcome of `input.ReadKey`: a decoded event, or a read error
(an I/O failure, or end of input on the underlying stream). -/
inductive ReadResult where
  | key (e : Event)
  | readErr
deriving Repr, DecidableEq

/-- Model of `input.runEventLoop` driven by a finite script of read outcomes; an
exhausted script behaves as a read failure (end of input). -/
def runEventLoop (s : SelectionState) : List ReadResult → Except SelError (List Nat)
  | [] => .error .readKeyFailed
  | r :: rest =>
    match r with
    | .readErr => .error .readKeyFailed
    | .key e =>
      match handleEvent s e with
      | (s1, _, shouldExit, err) =>
        match err with
        | some er => .error er
        | none =>
          if shouldExit then .ok (getSelectedIndices s1)
          else runEventLoop s1 rest

/-- Membership characterisation of the index-collection loop. -/
theorem mem_getSelectedIndicesAux (bs : List Bool) (k i : Nat) :
    i ∈ getSelectedIndicesAux bs k ↔
      ∃ j, j < bs.length ∧ bs.getD j false = true ∧ i = k + j := by
  induction bs generalizing k with
  | nil => simp [getSelectedIndicesAux]
  | cons b bs ih =>
    cases b with
    | true =>
      simp only [getSelectedIndicesAux, eq_self_iff_true, if_true, List.mem_cons, ih]
      constructor
      · intro h
        cases h with
        | inl h => exact ⟨0, by simp, rfl, by omega⟩
        | inr h =>
          obtain ⟨j, h1, h2, h3⟩ := h
          exact ⟨j + 1, by simp; omega, by simpa using h2, by omega⟩
      · intro h
        obtain ⟨j, h1, h2, h3⟩ := h
        cases j with
        | zero => left; omega
        | succ j =>
          right
          exact ⟨j, by simp at h1; omega, by simpa using h2, by omega⟩
    | false =>
      simp only [getSelectedIndicesAux, Bool.false_eq_true, if_false, ih]
      constructor
      · intro h
        obtain ⟨j, h1, h2, h3⟩ := h
        exact ⟨j + 1, by simp; omega, by simpa using h2, by omega⟩
      · intro h
        obtain ⟨j, h1, h2, h3⟩ := h
        cases j with
        | zero => simp at h2
        | succ j =>
          exact ⟨j, by simp at h1; omega, by simpa using h2, by omega⟩

/-- Every index collected from offset `k` is at least `k`. -/
theorem getSelectedIndicesAux_le (bs : List Bool) (k : Nat) :
    ∀ i ∈ getSelectedIndicesAux bs k, k ≤ i := by
  intro i hi
  rw [mem_getSelectedIndicesAux] at hi
  obtain ⟨j, _, _, h3⟩ := hi
  omega

/-- The collected index list is strictly increasing. -/
theorem sorted_getSelectedIndicesAux (bs : List Bool) (k : Nat) :
    List.Sorted (· < ·) (getSelectedIndicesAux bs k) := by
  induction bs generalizing k with
  | nil => simp [getSelectedIndicesAux]
  | cons b bs ih =>
    cases b with
    | true =>
      simp only [getSelectedIndicesAux, eq_self_iff_true, if_true]
      rw [List.sorted_cons]
      refine ⟨?_, ih (k + 1)⟩
      intro i hi
      have := getSelectedIndicesAux_le bs (k + 1) i hi
      omega
    | false =>
      simpa [getSelectedIndicesAux] using ih (k + 1)


/-- The terminal state the selector manipulates: whether raw input mode is
active and whether the text cursor is hidden. -/
structure Term where
  raw : Bool
  cursorHidden : Bool
deriving Repr, DecidableEq

/-- Model of `input.initializeTerminal`: enable raw mode (which can fail, in which
case the terminal is left untouched) and hide the cursor. -/
def initializeTerminal (enableRawModeOk : Bool) (t : Term) : Except SelError Term :=
  if enableRawModeOk then .ok { raw := true, cursorHidden := true }
  else .error .failedToSetRawMode

/-- Model of `input.SelectVideos` with the terminal state threaded explicitly.
`enableRawModeOk` says whether `terminal.EnableRawMode` succeeds; `script`
is the sequence of key-read outcomes; `t0` the terminal state at entry.
The deferred cleanup (`termState.Restore()` plus printing `ShowCursor`)
runs on every return after raw mode was enabled. -/
def selectVideos (videos : List Video) (all useEpisode : Bool)
    (enableRawModeOk : Bool) (script : List ReadResult) (t0 : Term) :
    Except SelError (List Nat) × Term :=
  if all || videos.length == 0 then
    (.ok (List.range videos.length), t0)
  else
    match initializeTerminal enableRawModeOk t0 with
    | .error e => (.error e, t0)
    | .ok _ =>
      let r := runEventLoop (newSelectionState videos useEpisode) script
      (r, { raw := t0.raw, cursorHidden := false })

/-- C1: in the interactive selector, for every state whose cursor `c` is a
valid position among the `n` items, an Arrow-Up event (into which the
`'k'` byte and `ESC [ A` both decode) moves the cursor to
`(c - 1 + n) mod n` and an Arrow-Down event (from `'j'` or `ESC [ B`)
moves it to `(c + 1) mod n`; moving up from 0 lands on `n - 1`, moving
down from `n - 1` lands on `0`, and navigation leaves the selection flags
untouched. -/
theorem interactive_navigation_wraps (s : SelectionState) (ch : Char)
    (hn : 0 < s.videos.length) (hc : s.currentIndex < s.videos.length) :
    (readKeyDecode [107] = { key := .arrowUp, char := 'k' }) ∧
    (readKeyDecode [27, 91, 65] = { key := .arrowUp, char := Char.ofNat 0 }) ∧
    (readKeyDecode [106] = { key := .arrowDown, char := 'j' }) ∧
    (readKeyDecode [27, 91, 66] = { key := .arrowDown, char := Char.ofNat 0 }) ∧
    (((handleEvent s { key := .arrowUp, char := ch }).1.currentIndex : Int) =
      ((s.currentIndex : Int) - 1 + (s.videos.length : Int)) % (s.videos.length : Int)) ∧
    ((handleEvent s { key := .arrowDown, char := ch }).1.currentIndex =
      (s.currentIndex + 1) % s.videos.length) ∧
    (s.currentIndex = 0 →
      (handleEvent s { key := .arrowUp, char := ch }).1.currentIndex = s.videos.length - 1) ∧
    (s.currentIndex = s.videos.length - 1 →
      (handleEvent s { key := .arrowDown, char := ch }).1.currentIndex = 0) ∧
    ((handleEvent s { key := .arrowUp, char := ch }).1.selected = s.selected) ∧
    ((handleEvent s { key := .arrowDown, char := ch }).1.selected = s.selected) := by
  have hne : (s.videos.length : Int) ≠ 0 := by
    exact_mod_cast Nat.pos_iff_ne_zero.mp hn
  refine ⟨rfl, rfl, rfl, rfl, ?_, rfl, ?_, ?_, rfl, rfl⟩
  · simp only [handleEvent, moveUp]
    rw [Int.toNat_of_nonneg (Int.emod_nonneg _ hne)]
  · intro h0
    simp only [handleEvent, moveUp, h0, Nat.cast_zero]
    rw [show ((0 : Int) - 1 + (s.videos.length : Int)) = (s.videos.length : Int) - 1 by ring]
    rw [Int.emod_eq_of_lt (by omega) (by omega)]
    omega
  · intro hend
    simp only [handleEvent, moveDown, hend]
    rw [Nat.sub_add_cancel hn, Nat.mod_self]

/-- Witness for C1 at a concrete two-item state. -/
theorem interactive_navigation_wraps_witness :
    ((handleEvent
        { videos := [{ title := "a", episode := "" }, { title := "b", episode := "" }],
          selected := [true, true], currentIndex := 0, useEpisode := false }
        { key := .arrowUp, char := 'k' }).1.currentIndex = 1) := by
  have h := interactive_navigation_wraps
    { videos := [{ title := "a", episode := "" }, { title := "b", episode := "" }],
      selected := [true, true], currentIndex := 0, useEpisode := false }
    'k' (by decide) (by decide)
  exact h.2.2.2.2.2.2.1 rfl

/-- C2: a Ctrl-C event makes the selection loop return the distinct
user-abort error, which differs from the key-read I/O error; no index list
is returned, and the loop returns a value (it does not crash or exit). -/
theorem interactive_ctrlc_aborts (s : SelectionState) (ch : Char)
    (rest : List ReadResult) :
    (runEventLoop s (.key { key := .ctrlC, char := ch } :: rest) = .error .userAbort) ∧
    (SelError.userAbort ≠ SelError.readKeyFailed) ∧
    (∀ l : List Nat,
      runEventLoop s (.key { key := .ctrlC, char := ch } :: rest) ≠ .ok l) := by
  refine ⟨rfl, by decide, ?_⟩
  intro l h
  simp [runEventLoop, handleEvent] at h

/-- Witness for C2 at a concrete state and script. -/
theorem interactive_ctrlc_aborts_witness :
    runEventLoop
      { videos := [{ title := "a", episode := "" }], selected := [true],
        currentIndex := 0, useEpisode := false }
      [.key { key := .ctrlC, char := Char.ofNat 0 }] = .error .userAbort :=
  (interactive_ctrlc_aborts
    { videos := [{ title := "a", episode := "" }], selected := [true],
      currentIndex := 0, useEpisode := false }
    (Char.ofNat 0) []).1

/-- C4: a Space event flips exactly the flag under the cursor (every other
flag is unchanged) and advances the cursor to `(cursor + 1) mod n`. -/
theorem interactive_space_toggles (s : SelectionState)
    (hc : s.currentIndex < s.selected.length) :
    ((handleEvent s { key := .space, char := ' ' }).1.selected[s.currentIndex]? =
      some (!(s.selected.getD s.currentIndex false))) ∧
    (∀ i, i ≠ s.currentIndex →
      (handleEvent s { key := .space, char := ' ' }).1.selected[i]? = s.selected[i]?) ∧
    ((handleEvent s { key := .space, char := ' ' }).1.currentIndex =
      (s.currentIndex + 1) % s.videos.length) := by
  refine ⟨?_, ?_, rfl⟩
  · simp only [handleEvent, toggleCurrent]
    rw [List.getElem?_set_eq hc]
  · intro i hi
    simp only [handleEvent, toggleCurrent]
    rw [List.getElem?_set_ne (by omega)]

/-- Witness for C4 at a concrete state. -/
theorem interactive_space_toggles_witness :
    ((handleEvent
        { videos := [{ title := "a", episode := "" }, { title := "b", episode := "" }],
          selected := [true, true], currentIndex := 0, useEpisode := false }
        { key := .space, char := ' ' }).1.selected[0]? = some false) := by
  have h := interactive_space_toggles
    { videos := [{ title := "a", episode := "" }, { title := "b", episode := "" }],
      selected := [true, true], currentIndex := 0, useEpisode := false }
    (by decide)
  exact h.1

/-- C5: an Enter event makes the loop return, as a success, exactly the
indices whose flag is set, in strictly increasing order; the list is empty
when every flag is off, and that is still a success. -/
theorem interactive_enter_returns_selected (s : SelectionState) (ch : Char)
    (rest : List ReadResult) :
    (runEventLoop s (.key { key := .enter, char := ch } :: rest) =
      .ok (getSelectedIndices s)) ∧
    (List.Sorted (· < ·) (getSelectedIndices s)) ∧
    (∀ i, i ∈ getSelectedIndices s ↔
      i < s.selected.length ∧ s.selected.getD i false = true) ∧
    ((∀ b ∈ s.selected, b = false) → getSelectedIndices s = []) := by
  refine ⟨rfl, sorted_getSelectedIndicesAux s.selected 0, ?_, ?_⟩
  · intro i
    rw [getSelectedIndices, mem_getSelectedIndicesAux]
    constructor
    · rintro ⟨j, h1, h2, h3⟩
      exact ⟨by omega, by rw [show i = j by omega]; exact h2⟩
    · rintro ⟨h1, h2⟩
      exact ⟨i, h1, h2, by omega⟩
  · intro hall
    rw [getSelectedIndices]
    by_contra hne
    match hmem : getSelectedIndicesAux s.selected 0 with
    | [] => exact hne hmem
    | i :: _ =>
      have hi : i ∈ getSelectedIndicesAux s.selected 0 := by rw [hmem]; exact List.mem_cons_self i _
      rw [mem_getSelectedIndicesAux] at hi
      obtain ⟨j, h1, h2, _⟩ := hi
      rw [List.getD_eq_getElem s.selected false h1] at h2
      have := hall (s.selected[j]) (List.getElem_mem h1)
      rw [this] at h2
      exact absurd h2 (by decide)

/-- Witness for C5: an all-off two-item state confirms to an empty success. -/
theorem interactive_enter_returns_selected_witness :
    runEventLoop
      { videos := [{ title := "a", episode := "" }, { title := "b", episode := "" }],
        selected := [false, false], currentIndex := 0, useEpisode := false }
      [.key { key := .enter, char := Char.ofNat 0 }] = .ok [] := by
  have h := interactive_enter_returns_selected
    { videos := [{ title := "a", episode := "" }, { title := "b", episode := "" }],
      selected := [false, false], currentIndex := 0, useEpisode := false }
    (Char.ofNat 0) []
  rw [h.1, h.2.2.2 (by decide)]

/-- C3: modelling the terminal mode as explicit state, after every
terminating run of the interactive selector that actually entered raw mode
(raw-mode setup succeeded), the raw-mode flag equals its entry value and
the cursor is no longer hidden — for every script, hence on the normal,
key-read-error and user-abort exit paths alike; when enabling raw mode
fails, the call returns the setup error with the terminal left exactly as
it was (the render loop is never entered). -/
theorem interactive_terminal_restored (videos : List Video) (useEpisode : Bool)
    (script : List ReadResult) (t0 : Term) (hne : videos ≠ []) :
    ((selectVideos videos false useEpisode true script t0).2 =
      { raw := t0.raw, cursorHidden := false }) ∧
    (selectVideos videos false useEpisode false script t0 =
      (.error .failedToSetRawMode, t0)) := by
  have hlen : (videos.length == 0) = false := by
    simp only [beq_eq_false_iff_ne, ne_eq, List.length_eq_zero]
    exact hne
  constructor
  · simp [selectVideos, hlen, initializeTerminal]
  · simp [selectVideos, hlen, initializeTerminal]

/-- Witness for C3 at a concrete video list, script and terminal state. -/
theorem interactive_terminal_restored_witness :
    (selectVideos [{ title := "a", episode := "" }] false false true
      [.key { key := .ctrlC, char := Char.ofNat 0 }]
      { raw := false, cursorHidden := false }).2 =
      { raw := false, cursorHidden := false } :=
  (interactive_terminal_restored [{ title := "a", episode := "" }] false
    [.key { key := .ctrlC, char := Char.ofNat 0 }]
    { raw := false, cursorHidden := false } (by decide)).1

/-- Errors of the text-based selection parser in
`internal/helper/ui/selector.go`. -/
inductive TextSelError where
  | invalidRange
  | invalidNumber
  | invalidEndNumber
  | numberOutOfRange
  | invalidRangeFormat
  | invalidStartNumber
  | noValidSelectionsFound
deriving Repr, DecidableEq

/-- Go `unicode.IsSpace` restricted to the ASCII range (space, tab,
newline, vertical tab, form feed, carriage return). -/
def isSpaceChar (c : Char) : Bool :=
  c = ' ' || c = '\t' || c = '\n' || c = '\r' || c.toNat = 11 || c.toNat = 12

/-- Go `strings.TrimSpace` on a character list. -/
def trimSpace (l : List Char) : List Char :=
  ((l.dropWhile isSpaceChar).reverse.dropWhile isSpaceChar).reverse

/-- The separator predicate of `parseSelection`: comma or space. -/
def isSepChar (c : Char) : Bool :=
  c = ',' || c = ' '

/-- Go `strings.FieldsFunc` with the comma/space separator: accumulates the
current field (reversed) and drops empty fields. -/
def fieldsAux : List Char → List Char → List (List Char)
  | [], acc => if acc = [] then [] else [acc.reverse]
  | c :: cs, acc =>
    if isSepChar c then
      if acc = [] then fieldsAux cs [] else acc.reverse :: fieldsAux cs []
    else fieldsAux cs (c :: acc)

/-- Go `strings.FieldsFunc(input, r == comma or space)`. -/
def fields (l : List Char) : List (List Char) :=
  fieldsAux l []

/-- Go `strings.Split(part, "-")`: split on every hyphen, keeping empty
parts. -/
def splitHyphenAux : List Char → List Char → List (List Char)
  | [], acc => [acc.reverse]
  | c :: cs, acc =>
    if c = '-' then acc.reverse :: splitHyphenAux cs []
    else splitHyphenAux cs (c :: acc)

/-- Go `strings.Split(part, "-")`. -/
def splitHyphen (l : List Char) : List (List Char) :=
  splitHyphenAux l []

/-- Decimal digit accumulation used by `strconv.Atoi`: fails on the first
non-digit character. -/
def digitsLoop : List Char → Nat → Option Nat
  | [], acc => some acc
  | c :: cs, acc =>
    if c.isDigit then digitsLoop cs (acc * 10 + (c.toNat - 48)) else none

/-- The digits of a non-empty all-digit string as a natural number. -/
def digitsToNat : List Char → Option Nat
  | [] => none
  | s => digitsLoop s 0

/-- Go `strconv.Atoi`: optional sign, then decimal digits; errors on an
empty string, a stray character, or 64-bit overflow. -/
def atoi (s : List Char) : Option Int :=
  match s with
  | [] => none
  | c :: rest =>
    if c = '+' then
      (digitsToNat rest).bind fun n =>
        if n ≤ 9223372036854775807 then some (n : Int) else none
    else if c = '-' then
      (digitsToNat rest).bind fun n =>
        if n ≤ 9223372036854775808 then some (-(n : Int)) else none
    else
      (digitsToNat s).bind fun n =>
        if n ≤ 9223372036854775807 then some (n : Int) else none

/-- The body of the dedup step shared by both selection handlers: append
`index` unless it was seen, and record it as seen. -/
def addIndex (index : Nat) (indices seen : List Nat) : List Nat × List Nat :=
  if index ∈ seen then (indices, seen)
  else (indices ++ [index], index :: seen)

/-- The `for i := start; i <= end; i++` loop of `handleRangeSelection`,
structured over its iteration count `e + 1 - i`. -/
def addRangeCount : Nat → Nat → List Nat → List Nat → List Nat × List Nat
  | 0, _, indices, seen => (indices, seen)
  | k + 1, i, indices, seen =>
    let p := addIndex (i - 1) indices seen
    addRangeCount k (i + 1) p.1 p.2

/-- The `for i := start; i <= end; i++` loop of `handleRangeSelection`:
runs the body once per `i` in `[start, end]`. -/
def addRangeLoop (i e : Nat) (indices seen : List Nat) : List Nat × List Nat :=
  addRangeCount (e + 1 - i) i indices seen

/-- Model of `handleRangeSelection`: process a range token such as `1-5`. -/
def handleRangeSelection (part : List Char) (availableVideos : Nat)
    (indices seen : List Nat) : Except TextSelError (List Nat × List Nat) :=
  match splitHyphen part with
  | [p0, p1] =>
    match atoi (trimSpace p0) with
    | none => .error .invalidStartNumber
    | some start =>
      match atoi (trimSpace p1) with
      | none => .error .invalidEndNumber
      | some stop =>
        if start < 1 ∨ stop > (availableVideos : Int) ∨ start > stop then
          .error .invalidRange
        else
          .ok (addRangeLoop start.toNat stop.toNat indices seen)
  | _ => .error .invalidRangeFormat

/-- Model of `handleSingleSelection`: process a single-number token. -/
def handleSingleSelection (part : List Char) (availableVideos : Nat)
    (indices seen : List Nat) : Except TextSelError (List Nat × List Nat) :=
  match atoi part with
  | none => .error .invalidNumber
  | some num =>
    if num < 1 ∨ num > (availableVideos : Int) then .error .numberOutOfRange
    else .ok (addIndex (num.toNat - 1) indices seen)

/-- The token loop of `parseSelection`. -/
def parseLoop (availableVideos : Nat) :
    List (List Char) → List Nat → List Nat → Except TextSelError (List Nat × List Nat)
  | [], indices, seen => .ok (indices, seen)
  | part :: rest, indices, seen =>
    let part := trimSpace part
    if part = [] then parseLoop availableVideos rest indices seen
    else if part.contains '-' then
      match handleRangeSelection part availableVideos indices seen with
      | .error e => .error e
      | .ok (i1, s1) => parseLoop availableVideos rest i1 s1
    else
      match handleSingleSelection part availableVideos indices seen with
      | .error e => .error e
      | .ok (i1, s1) => parseLoop availableVideos rest i1 s1

/-- Model of `parseSelection`: tokenize, process each token, fail on an empty
result, sort ascending. -/
def parseSelection (input : List Char) (availableVideos : Nat) :
    Except TextSelError (List Nat) :=
  match parseLoop availableVideos (fields input) [] [] with
  | .error e => .error e
  | .ok (indices, _) =>
    if indices = [] then .error .noValidSelectionsFound
    else .ok (List.insertionSort (· ≤ ·) indices)

/-- Running the range loop for `k` iterations from `i ≥ 1`, when nothing
at or above `i - 1` has been seen, appends exactly
`i - 1, i, …, i - 1 + k - 1` and records them as seen. -/
theorem addRangeCount_fresh (k : Nat) :
    ∀ (i : Nat) (indices seen : List Nat), 1 ≤ i → (∀ x ∈ seen, x + 1 < i) →
      addRangeCount k i indices seen =
        (indices ++ List.range' (i - 1) k,
         (List.range' (i - 1) k).reverse ++ seen) := by
  induction k with
  | zero => intro i indices seen hi hs; simp [addRangeCount]
  | succ k ih =>
    intro i indices seen hi hs
    have hnot : (i - 1) ∉ seen := by
      intro hmem
      have := hs _ hmem
      omega
    simp only [addRangeCount, addIndex, if_neg hnot]
    rw [ih (i + 1) (indices ++ [i - 1]) ((i - 1) :: seen) (by omega) ?fresh]
    case fresh =>
      intro x hx
      rcases List.mem_cons.mp hx with h | h
      · omega
      · have := hs _ h; omega
    have hi1 : i - 1 + 1 = i := by omega
    have hr : List.range' (i - 1) (k + 1) = (i - 1) :: List.range' i k := by
      rw [List.range'_succ, hi1]
    rw [hr]
    simp [Nat.add_sub_cancel]

/-- C6: a range token splitting into two parts with numeric values `a` and
`b` is accepted exactly when `1 ≤ a ≤ b ≤ itemCount`; on acceptance (from
a fresh accumulator) it contributes exactly the 0-based indices
`a-1 … b-1`, and on any numeric violation it aborts with the
"invalid range" error and contributes nothing. -/
theorem text_range_bounds (part p0 p1 : List Char) (a b : Int) (n : Nat)
    (hsplit : splitHyphen part = [p0, p1])
    (ha : atoi (trimSpace p0) = some a) (hb : atoi (trimSpace p1) = some b) :
    (1 ≤ a ∧ a ≤ b ∧ b ≤ (n : Int) →
      handleRangeSelection part n [] [] =
        .ok (List.range' (a.toNat - 1) (b.toNat + 1 - a.toNat),
             (List.range' (a.toNat - 1) (b.toNat + 1 - a.toNat)).reverse)) ∧
    (¬(1 ≤ a ∧ a ≤ b ∧ b ≤ (n : Int)) →
      ∀ indices seen, handleRangeSelection part n indices seen = .error .invalidRange) := by
  constructor
  · intro hok
    obtain ⟨h1, h2, h3⟩ := hok
    simp only [handleRangeSelection, hsplit, ha, hb]
    rw [if_neg (by push_neg; omega)]
    rw [addRangeLoop, addRangeCount_fresh _ _ _ _ (by omega) (by simp)]
    simp
  · intro hbad indices seen
    simp only [handleRangeSelection, hsplit, ha, hb]
    rw [if_pos (by push_neg at hbad; omega)]

/-- Witness for C6: the token `2-4` against 5 items yields indices 1…3. -/
theorem text_range_bounds_witness :
    handleRangeSelection "2-4".data 5 [] [] = .ok ([1, 2, 3], [3, 2, 1]) := by
  have h := (text_range_bounds "2-4".data "2".data "4".data 2 4 5 rfl rfl rfl).1
    (by norm_num)
  rw [h]
  rfl

/-- C7 as stated is false: the token `-1` contains a hyphen and does not
split into two non-empty parts, yet parsing fails with the
"invalid start number" error, not the "invalid range format" error
(`strings.Split("-1", "-")` gives two parts, the first empty, so the
length check passes and `Atoi("")` fails first). -/
theorem text_range_format_counterexample :
    parseSelection "-1".data 1 = .error .invalidStartNumber ∧
    TextSelError.invalidStartNumber ≠ TextSelError.invalidRangeFormat := by
  exact ⟨rfl, by decide⟩

/-- C7 (amended): a token containing a hyphen fails with the
"invalid range format" error exactly when it splits into a number of
hyphen-separated parts other than two (for example `1-2-3`); a token such
as `-1` or `1-` splits into exactly two parts of which one is empty and
fails instead with the "invalid start number" (resp. "invalid end
number") error. -/
theorem text_range_format (part : List Char) (n : Nat) (indices seen : List Nat)
    (h : (splitHyphen part).length ≠ 2) :
    (handleRangeSelection part n indices seen = .error .invalidRangeFormat) ∧
    (parseSelection "1-2-3".data 3 = .error .invalidRangeFormat) ∧
    (parseSelection "-1".data 1 = .error .invalidStartNumber) ∧
    (parseSelection "1-".data 1 = .error .invalidEndNumber) := by
  refine ⟨?_, rfl, rfl, rfl⟩
  rcases hs : splitHyphen part with _ | ⟨x, _ | ⟨y, _ | ⟨z, rest⟩⟩⟩
  · simp [handleRangeSelection, hs]
  · simp [handleRangeSelection, hs]
  · rw [hs] at h; simp at h
  · simp [handleRangeSelection, hs]

/-- Witness for the amended C7 at the token `1-2-3`. -/
theorem text_range_format_witness :
    handleRangeSelection "1-2-3".data 3 [] [] = .error .invalidRangeFormat :=
  (text_range_format "1-2-3".data 3 [] [] (by decide)).1

/-- The step `addIndex` preserves: the accumulated indices are duplicate-free and
all recorded as seen. -/
theorem addIndex_inv (i : Nat) (indices seen : List Nat)
    (h1 : indices.Nodup) (h2 : ∀ x ∈ indices, x ∈ seen) :
    (addIndex i indices seen).1.Nodup ∧
      ∀ x ∈ (addIndex i indices seen).1, x ∈ (addIndex i indices seen).2 := by
  by_cases hmem : i ∈ seen
  · simp only [addIndex, if_pos hmem]
    exact ⟨h1, h2⟩
  · simp only [addIndex, if_neg hmem]
    constructor
    · rw [List.nodup_append]
      refine ⟨h1, List.nodup_singleton i, ?_⟩
      intro x hx hxi
      rw [List.mem_singleton] at hxi
      subst hxi
      exact hmem (h2 x hx)
    · intro x hx
      rcases List.mem_append.mp hx with h | h
      · exact List.mem_cons_of_mem i (h2 x h)
      · rw [List.mem_singleton] at h
        subst h
        exact List.mem_cons_self x seen

/-- The range loop preserves the dedup invariant. -/
theorem addRangeCount_inv (k : Nat) :
    ∀ (i : Nat) (indices seen : List Nat), indices.Nodup → (∀ x ∈ indices, x ∈ seen) →
      (addRangeCount k i indices seen).1.Nodup ∧
        ∀ x ∈ (addRangeCount k i indices seen).1, x ∈ (addRangeCount k i indices seen).2 := by
  induction k with
  | zero => intro i indices seen h1 h2; exact ⟨h1, h2⟩
  | succ k ih =>
    intro i indices seen h1 h2
    simp only [addRangeCount]
    have h := addIndex_inv (i - 1) indices seen h1 h2
    exact ih (i + 1) _ _ h.1 h.2

/-- Success of `handleRangeSelection` preserves the dedup invariant on success. -/
theorem handleRangeSelection_inv (part : List Char) (n : Nat)
    (indices seen i1 s1 : List Nat)
    (h : handleRangeSelection part n indices seen = .ok (i1, s1))
    (h1 : indices.Nodup) (h2 : ∀ x ∈ indices, x ∈ seen) :
    i1.Nodup ∧ ∀ x ∈ i1, x ∈ s1 := by
  simp only [handleRangeSelection] at h
  split at h
  · split at h
    · exact absurd h (by simp)
    · split at h
      · exact absurd h (by simp)
      · split at h
        · exact absurd h (by simp)
        · rw [Except.ok.injEq] at h
          have hfst := congrArg Prod.fst h
          have hsnd := congrArg Prod.snd h
          simp only at hfst hsnd
          rw [← hfst, ← hsnd, addRangeLoop]
          exact addRangeCount_inv _ _ indices seen h1 h2
  · exact absurd h (by simp)

/-- Success of `handleSingleSelection` preserves the dedup invariant on success. -/
theorem handleSingleSelection_inv (part : List Char) (n : Nat)
    (indices seen i1 s1 : List Nat)
    (h : handleSingleSelection part n indices seen = .ok (i1, s1))
    (h1 : indices.Nodup) (h2 : ∀ x ∈ indices, x ∈ seen) :
    i1.Nodup ∧ ∀ x ∈ i1, x ∈ s1 := by
  simp only [handleSingleSelection] at h
  split at h
  · exact absurd h (by simp)
  · split at h
    · exact absurd h (by simp)
    · rw [Except.ok.injEq] at h
      have hfst := congrArg Prod.fst h
      have hsnd := congrArg Prod.snd h
      simp only at hfst hsnd
      rw [← hfst, ← hsnd]
      exact addIndex_inv _ indices seen h1 h2

/-- The token loop of `parseSelection` preserves the dedup invariant. -/
theorem parseLoop_inv (n : Nat) :
    ∀ (parts : List (List Char)) (indices seen i1 s1 : List Nat),
      parseLoop n parts indices seen = .ok (i1, s1) →
      indices.Nodup → (∀ x ∈ indices, x ∈ seen) →
      i1.Nodup ∧ ∀ x ∈ i1, x ∈ s1 := by
  intro parts
  induction parts with
  | nil =>
    intro indices seen i1 s1 h h1 h2
    simp only [parseLoop, Except.ok.injEq, Prod.mk.injEq] at h
    rw [← h.1, ← h.2]
    exact ⟨h1, h2⟩
  | cons part rest ih =>
    intro indices seen i1 s1 h h1 h2
    simp only [parseLoop] at h
    split at h
    · exact ih indices seen i1 s1 h h1 h2
    · split at h
      · split at h
        · exact absurd h (by simp)
        · rename_i heq
          have hinv := handleRangeSelection_inv _ _ indices seen _ _ heq h1 h2
          exact ih _ _ i1 s1 h hinv.1 hinv.2
      · split at h
        · exact absurd h (by simp)
        · rename_i heq
          have hinv := handleSingleSelection_inv _ _ indices seen _ _ heq h1 h2
          exact ih _ _ i1 s1 h hinv.1 hinv.2

/-- C8: whenever text-based selection succeeds, the returned index list is
sorted ascending and free of duplicates (cross-token duplicates were
silently merged, not reported); in particular `"1,1,1-2,2"` against 2
items succeeds with `[0, 1]`. -/
theorem text_dedup_sorted :
    (∀ (input : List Char) (n : Nat) (l : List Nat),
      parseSelection input n = .ok l → List.Sorted (· ≤ ·) l ∧ l.Nodup) ∧
    parseSelection "1,1,1-2,2".data 2 = .ok [0, 1] := by
  refine ⟨?_, rfl⟩
  intro input n l h
  simp only [parseSelection] at h
  split at h
  · exact absurd h (by simp)
  · rename_i res indices seen heq
    split at h
    · exact absurd h (by simp)
    · rw [Except.ok.injEq] at h
      have hnodup := (parseLoop_inv n (fields input) [] [] indices seen heq
        List.nodup_nil (by simp)).1
      rw [← h]
      constructor
      · exact List.sorted_insertionSort (· ≤ ·) indices
      · exact ((List.perm_insertionSort (· ≤ ·) indices).nodup_iff).mpr hnodup

/-- Witness for C8 applying the universal part at the concrete example. -/
theorem text_dedup_sorted_witness :
    List.Sorted (· ≤ ·) [0, 1] ∧ List.Nodup [0, 1] :=
  text_dedup_sorted.1 "1,1,1-2,2".data 2 [0, 1] text_dedup_sorted.2

/-- Tokenising an all-separator input yields no fields. -/
theorem fieldsAux_all_sep (l : List Char) (h : ∀ c ∈ l, isSepChar c = true) :
    fieldsAux l [] = [] := by
  induction l with
  | nil => rfl
  | cons c cs ih =>
    have hc : isSepChar c = true := h c (List.mem_cons_self c cs)
    simp only [fieldsAux, hc, if_pos rfl, if_true]
    exact ih fun x hx => h x (List.mem_cons_of_mem c hx)

/-- C9: when parsing violates no rule but produces zero indices — in
particular for every input made only of separators, such as `",,,"` — the
parser returns the "no valid selections" error; a successful result is
never the empty list. -/
theorem text_no_valid_selections :
    (∀ (input : List Char) (n : Nat), (∀ c ∈ input, isSepChar c = true) →
      parseSelection input n = .error .noValidSelectionsFound) ∧
    (∀ (input : List Char) (n : Nat) (l : List Nat),
      parseSelection input n = .ok l → l ≠ []) ∧
    parseSelection ",,,".data 1 = .error .noValidSelectionsFound := by
  refine ⟨?_, ?_, rfl⟩
  · intro input n h
    rw [parseSelection, fields, fieldsAux_all_sep input h]
    rfl
  · intro input n l h
    simp only [parseSelection] at h
    split at h
    · exact absurd h (by simp)
    · rename_i res indices seen heq
      split at h
      · exact absurd h (by simp)
      · rename_i hne
        rw [Except.ok.injEq] at h
        intro hnil
        rw [← h] at hnil
        have hlen := List.length_insertionSort (fun x y => x ≤ y) indices
        rw [hnil] at hlen
        simp only [List.length_nil] at hlen
        exact hne (List.length_eq_zero.mp hlen.symm)

/-- Witness for C9 at the all-separator input `",,,"`. -/
theorem text_no_valid_selections_witness :
    parseSelection [',', ',', ','] 2 = .error .noValidSelectionsFound :=
  text_no_valid_selections.1 [',', ',', ','] 2 (by decide)

/-- Model of `download.mediaType`. -/
inductive MediaType where
  | videoType
  | channelType
  | unknownType
deriving Repr, DecidableEq

/-- Model of `errInvalidURL` from `internal/download/client.go`. -/
inductive URLError where
  | invalidURL
deriving Repr, DecidableEq

/-- Go `strings.CutPrefix p s` (equivalently `HasPrefix` + `TrimPrefix`):
`some rest` when `s = p ++ rest`, otherwise `none`. -/
def cutPre : List Char → List Char → Option (List Char)
  | [], s => some s
  | _ :: _, [] => none
  | p :: ps, c :: cs => if c = p then cutPre ps cs else none

/-- The base URL constant `baseURL` of the download client. -/
def baseURL : List Char := "https://tube.switch.ch/".data

/-- The `videoPrefix` constant. -/
def videoPre : List Char := "videos/".data

/-- The `channelPrefix` constant. -/
def channelPre : List Char := "channels/".data

/-- Model of `extractIDAndType`: trim, strip the base URL, then classify by the
`videos/` or `channels/` path component. -/
def extractIDAndType (input : List Char) : List Char × MediaType × Option URLError :=
  let t := trimSpace input
  match cutPre baseURL t with
  | none => (t, .unknownType, none)
  | some rest =>
    match cutPre videoPre rest with
    | some id => (id, .videoType, none)
    | none =>
      match cutPre channelPre rest with
      | some id => (id, .channelType, none)
      | none => (rest, .unknownType, some .invalidURL)

/-- The function `cutPre` succeeds exactly on the split it names. -/
theorem cutPre_eq_some (p : List Char) :
    ∀ (s r : List Char), cutPre p s = some r ↔ s = p ++ r := by
  induction p with
  | nil =>
    intro s r
    simp [cutPre, eq_comm]
  | cons c cs ih =>
    intro s r
    cases s with
    | nil => simp [cutPre]
    | cons x xs =>
      by_cases hx : x = c
      · subst hx
        simp only [cutPre, if_pos rfl, List.cons_append, List.cons.injEq, true_and]
        exact ih xs r
      · simp only [cutPre, if_neg hx, List.cons_append, List.cons.injEq]
        constructor
        · intro h; exact absurd h (by simp)
        · intro h; exact absurd h.1 hx

/-- The function `cutPre` fails exactly when no split exists. -/
theorem cutPre_eq_none (p s : List Char) :
    cutPre p s = none ↔ ¬ ∃ r, s = p ++ r := by
  constructor
  · intro h ⟨r, hr⟩
    rw [← cutPre_eq_some p s r] at hr
    rw [h] at hr
    exact Option.noConfusion hr
  · intro h
    cases hc : cutPre p s with
    | none => rfl
    | some r => exact absurd ⟨r, (cutPre_eq_some p s r).mp hc⟩ h

/-- C10: after trimming, an input that does not start with the base URL
`https://tube.switch.ch/` comes back unchanged as an ID of unknown type
with no error; a base-URL input continuing with `videos/`
(resp. `channels/`) yields the suffix after that path component classified
as a video (resp. channel) with no error; and the call errs exactly when
the input starts with the base URL but its remainder starts with neither
`videos/` nor `channels/`. -/
theorem extract_id_and_type (input : List Char) :
    ((¬ ∃ r, trimSpace input = baseURL ++ r) →
      extractIDAndType input = (trimSpace input, .unknownType, none)) ∧
    (∀ rest, trimSpace input = baseURL ++ (videoPre ++ rest) →
      extractIDAndType input = (rest, .videoType, none)) ∧
    (∀ rest, trimSpace input = baseURL ++ (channelPre ++ rest) →
      extractIDAndType input = (rest, .channelType, none)) ∧
    ((extractIDAndType input).2.2 = some .invalidURL ↔
      ∃ rest, trimSpace input = baseURL ++ rest ∧
        (¬ ∃ r, rest = videoPre ++ r) ∧ (¬ ∃ r, rest = channelPre ++ r)) := by
  refine ⟨?_, ?_, ?_, ?_⟩
  · intro h
    have hb : cutPre baseURL (trimSpace input) = none := (cutPre_eq_none _ _).mpr h
    simp only [extractIDAndType, hb]
  · intro rest h
    have hb : cutPre baseURL (trimSpace input) = some (videoPre ++ rest) :=
      (cutPre_eq_some _ _ _).mpr h
    have hv : cutPre videoPre (videoPre ++ rest) = some rest :=
      (cutPre_eq_some _ _ _).mpr rfl
    simp only [extractIDAndType, hb, hv]
  · intro rest h
    have hb : cutPre baseURL (trimSpace input) = some (channelPre ++ rest) :=
      (cutPre_eq_some _ _ _).mpr h
    have hv : cutPre videoPre (channelPre ++ rest) = none := by
      rw [cutPre_eq_none]
      intro ⟨r, hr⟩
      exact absurd (congrArg (fun l => l.take 1) hr) (by simp [videoPre, channelPre])
    have hc : cutPre channelPre (channelPre ++ rest) = some rest :=
      (cutPre_eq_some _ _ _).mpr rfl
    simp only [extractIDAndType, hb, hv, hc]
  · cases hb : cutPre baseURL (trimSpace input) with
    | none =>
      have hval : extractIDAndType input = (trimSpace input, .unknownType, none) := by
        simp only [extractIDAndType, hb]
      rw [hval]
      constructor
      · intro h; exact Option.noConfusion h
      · intro ⟨rest, hrest, _⟩
        rw [cutPre_eq_none] at hb
        exact absurd ⟨rest, hrest⟩ hb
    | some rest =>
      rw [cutPre_eq_some] at hb
      cases hv : cutPre videoPre rest with
      | some r =>
        have hval : extractIDAndType input = (r, .videoType, none) := by
          simp only [extractIDAndType, (cutPre_eq_some _ _ _).mpr hb, hv]
        rw [hval]
        rw [cutPre_eq_some] at hv
        constructor
        · intro h; exact Option.noConfusion h
        · intro ⟨rest2, hrest2, hnv, _⟩
          have heq : rest = rest2 := List.append_cancel_left (hb.symm.trans hrest2)
          subst heq
          exact absurd ⟨r, hv⟩ hnv
      | none =>
        cases hc : cutPre channelPre rest with
        | some r =>
          have hval : extractIDAndType input = (r, .channelType, none) := by
            simp only [extractIDAndType, (cutPre_eq_some _ _ _).mpr hb, hv, hc]
          rw [hval]
          rw [cutPre_eq_some] at hc
          constructor
          · intro h; exact Option.noConfusion h
          · intro ⟨rest2, hrest2, _, hnc⟩
            have heq : rest = rest2 := List.append_cancel_left (hb.symm.trans hrest2)
            subst heq
            exact absurd ⟨r, hc⟩ hnc
        | none =>
          have hval : extractIDAndType input = (rest, .unknownType, some .invalidURL) := by
            simp only [extractIDAndType, (cutPre_eq_some _ _ _).mpr hb, hv, hc]
          rw [hval]
          rw [cutPre_eq_none] at hv hc
          constructor
          · intro _; exact ⟨rest, hb, hv, hc⟩
          · intro _; rfl

/-- Witness for C10 at concrete video-URL, channel-URL, bare-ID and
invalid-URL inputs. -/
theorem extract_id_and_type_witness :
    extractIDAndType "https://tube.switch.ch/videos/abc".data =
      ("abc".data, .videoType, none) ∧
    extractIDAndType "https://tube.switch.ch/channels/xyz".data =
      ("xyz".data, .channelType, none) ∧
    extractIDAndType "someBareID".data = ("someBareID".data, .unknownType, none) ∧
    (extractIDAndType "https://tube.switch.ch/invalid/123".data).2.2 =
      some .invalidURL := by
  refine ⟨?_, ?_, ?_, rfl⟩
  · exact (extract_id_and_type "https://tube.switch.ch/videos/abc".data).2.1
      "abc".data (by decide)
  · exact (extract_id_and_type "https://tube.switch.ch/channels/xyz".data).2.2.1
      "xyz".data (by decide)
  · refine (extract_id_and_type "someBareID".data).1 ?_
    exact (cutPre_eq_none _ _).mp rfl

end STV
